import Mathlib

/-!
Verification of the natural-language specification of `downall`
(`src/src/main.rs`), a bulk URL downloader.  The Rust source is shallowly
embedded: strings are modelled as `List Char`, header bytes as `List Nat`,
network and filesystem effects as explicit inputs (the response delivered
to a task, the success of each write).  Every definition mirrors a
function or code region of `src/src/main.rs`, or the documented behaviour
of the third-party crates it calls (`regex`, `url`, `http`, `backon`).
-/

set_option autoImplicit false

namespace Downall

/-- Whitespace test embedding the `\s` character class of the Rust `regex`
crate as used in `get_urls` (src/src/main.rs line 104), restricted to the
ASCII whitespace characters (space, tab, line feed, vertical tab, form
feed, carriage return); the inputs of interest contain no non-ASCII
whitespace. -/
def isSpace (c : Char) : Bool :=
  c = ' ' || c = '\t' || c = '\n' || c = '\r' || c = '\x0b' || c = '\x0c'

/-- Literal-prefix test: `litMatch p l` holds when the pattern characters
`p` appear verbatim at the head of `l`.  Used to embed the literal parts
of the regular expressions in src/src/main.rs. -/
def litMatch : List Char → List Char → Bool
  | [], _ => true
  | _ :: _, [] => false
  | p :: ps, c :: cs => p = c && litMatch ps cs

/-- The characters of the literal `https://`. -/
def httpsLit : List Char := "https://".toList

/-- The characters of the literal `http://`. -/
def httpLit : List Char := "http://".toList

/-- Embeds the `https?://` part of the pattern
`(https?://\S+[.!,;\?'\"]?)\s` of `get_urls` (src/src/main.rs line 104):
at the current position, the greedy `s?` first tries `https://`, then
`http://`; on success it returns the matched scheme characters and the
remaining text. -/
def matchScheme (cs : List Char) : Option (List Char × List Char) :=
  if litMatch httpsLit cs then some (httpsLit, cs.drop 8)
  else if litMatch httpLit cs then some (httpLit, cs.drop 7)
  else none

/-- Fuelled scanner embedding `Regex::captures_iter` of the pattern
`(https?://\S+[.!,;\?'\"]?)\s` over the input text (src/src/main.rs
lines 104-108), with the crate's leftmost-first semantics.  At each
position: if the scheme matches and is followed by a non-empty maximal
run of non-whitespace characters and then a whitespace character, group 1
captures the scheme plus that whole run (the greedy `\S+` consumes the
run, so the optional trailing punctuation class can only match the empty
string), and scanning resumes after the whitespace character consumed by
`\s`; otherwise scanning advances one character.  The fuel is an upper
bound on the number of scanning steps; `get_urls` supplies the text
length, which always suffices. -/
def getUrlsGo : Nat → List Char → List (List Char)
  | 0, _ => []
  | _ + 1, [] => []
  | fuel + 1, c :: rest =>
    match matchScheme (c :: rest) with
    | none => getUrlsGo fuel rest
    | some (scheme, after) =>
      match after.takeWhile (fun x => !isSpace x), after.dropWhile (fun x => !isSpace x) with
      | [], _ => getUrlsGo fuel rest
      | _ :: _, [] => getUrlsGo fuel rest
      | r :: rs, _ :: tl => (scheme ++ r :: rs) :: getUrlsGo fuel tl

/-- Embeds `get_urls` (src/src/main.rs lines 102-109): the ordered list of
group-1 captures of `(https?://\S+[.!,;\?'\"]?)\s` over the file content. -/
def get_urls (content : List Char) : List (List Char) :=
  getUrlsGo content.length content

example : get_urls "See http://a.b. now".toList = ["http://a.b.".toList] := by decide

example : get_urls "http://a.b http://a.b ".toList
    = ["http://a.b".toList, "http://a.b".toList] := by decide

example : get_urls "x http://a.b".toList = [] := by decide

example : get_urls "go https://x.y/z now".toList = ["https://x.y/z".toList] := by decide

/-- Embeds the retry loop of `backon::Retryable::retry` driven by the
backoff iterator of `ExponentialBuilder::with_max_times` (as invoked at
src/src/main.rs lines 40-42): the operation is invoked once; on error the
backoff iterator is polled, and each of the at most `remaining` delays it
yields grants one further invocation; when the iterator is exhausted the
last error is returned.  `f k` is the result of the `k`-th invocation
(0-based); the sleep durations are irrelevant to the embedded claims and
omitted.  Returns the total number of invocations performed together with
the final result. -/
def retryLoop {E A : Type} (f : Nat → Except E A) : Nat → Nat → Nat × Except E A
  | remaining, k =>
    match f k with
    | .ok a => (k + 1, .ok a)
    | .error e =>
      match remaining with
      | 0 => (k + 1, .error e)
      | r + 1 => retryLoop f r (k + 1)

/-- Embeds `download_url.retry(ExponentialBuilder::default().with_max_times(maxTimes))`
(src/src/main.rs lines 40-42): one initial invocation plus at most
`maxTimes` retries. -/
def backon_retry {E A : Type} (maxTimes : Nat) (f : Nat → Except E A) : Nat × Except E A :=
  retryLoop f maxTimes 0

/-- Visible-ASCII test of the `http` crate's `HeaderValue::to_str`
(invoked at src/src/main.rs line 87 via `h.to_str()?`): `to_str` succeeds
exactly when every byte of the header value is visible ASCII (32-126) or
horizontal tab. -/
def is_visible_ascii (b : Nat) : Bool :=
  (32 ≤ b && b < 127) || b = 9

/-- Embeds `HeaderValue::to_str` on the `Content-Disposition` value
(src/src/main.rs line 87): succeeds with the decoded characters when all
bytes are visible ASCII, fails otherwise. -/
def headerToStr (bs : List Nat) : Option (List Char) :=
  if bs.all is_visible_ascii then some (bs.map Char.ofNat) else none

/-- The ASCII bytes of a string, used to build concrete header values. -/
def strBytes (s : String) : List Nat := s.toList.map Char.toNat

/-- The characters of the literal `filename="` of the regular expression
`filename="(.*?)"` (src/src/main.rs line 87). -/
def filenameLit : List Char := "filename=\"".toList

/-- Lazy capture of `(.*?)"` (src/src/main.rs line 87): collects
characters up to the first `"`; fails if a line feed (which `.` does not
match) or the end of the text is reached first. -/
def captureAfter : List Char → Option (List Char)
  | [] => none
  | c :: rest =>
    if c = '"' then some []
    else if c = '\n' then none
    else (captureAfter rest).map (c :: ·)

/-- Embeds `regex_captures!(r#"filename="(.*?)""#, s)` (src/src/main.rs
line 87) with leftmost-first semantics: at the first position where the
literal `filename="` matches and a closing `"` follows on the same line,
the lazily captured group 1 is returned; otherwise the scan advances one
character. -/
def findFilename : List Char → Option (List Char)
  | [] => none
  | c :: rest =>
    if litMatch filenameLit (c :: rest) then
      match captureAfter (List.drop 10 (c :: rest)) with
      | some cap => some cap
      | none => findFilename rest
    else findFilename rest

example : findFilename "attachment; filename=\"report.pdf\"".toList
    = some "report.pdf".toList := by decide

example : findFilename "filename=\"a\"b\"".toList = some "a".toList := by decide

/-- Splits a character list on `/`, embedding the segment iteration of the
`url` crate: `n` slashes yield `n + 1` segments, so the result is never
empty and an empty path yields the single empty segment. -/
def splitSlash : List Char → List (List Char)
  | [] => [[]]
  | c :: rest =>
    if c = '/' then [] :: splitSlash rest
    else
      match splitSlash rest with
      | [] => [[c]]
      | s :: ss => (c :: s) :: ss

/-- Embeds `Url::path_segments` of the `url` crate (called at
src/src/main.rs line 98) on the serialized path of the URL: for an
HTTP(S) URL the path always starts with `/` (the crate normalizes
`https://example.com` to path `/`) and the segments are the slash-
separated pieces after that leading slash; a path not starting with `/`
belongs to a cannot-be-a-base URL and yields no segments. -/
def path_segments (path : List Char) : Option (List (List Char)) :=
  match path with
  | '/' :: rest => some (splitSlash rest)
  | _ => none

/-- Embeds `get_file_name_from_url` (src/src/main.rs lines 97-100):
`url.path_segments().map(|s| s.last()).flatten()` on the URL's path. -/
def get_file_name_from_url (path : List Char) : Option (List Char) :=
  Option.join ((path_segments path).map (fun s => s.getLast?))

example : get_file_name_from_url "/images/cat.png".toList = some "cat.png".toList := by decide

example : get_file_name_from_url "/".toList = some [] := by decide

/-- The part of an HTTP response that `download_image` consumes after
`error_for_status` has succeeded: the first `Content-Disposition` header
value (raw bytes), if any, and the body bytes. -/
structure HttpResponse where
  contentDisposition : Option (List Nat)
  body : List Nat

/-- Embeds `download_image` (src/src/main.rs lines 70-95) from the point
the network outcome is known.  `resp` is the result of
`send().await?.error_for_status()?` (an error models a connection failure
or a non-2xx status); `urlPath` is the request URL's serialized path.  If
a `Content-Disposition` header is present its bytes must be visible ASCII
(`h.to_str()?`, otherwise the whole call fails); then the
`filename="(.*?)"` capture is used if it matches, else the last URL path
segment; with no header the last URL path segment is used directly. -/
def download_image (resp : Except String HttpResponse) (urlPath : List Char) :
    Except String (Option (List Char) × List Nat) :=
  match resp with
  | .error e => .error e
  | .ok r =>
    match r.contentDisposition with
    | some h =>
      match headerToStr h with
      | none => .error "InvalidHeaderValue"
      | some s =>
        match findFilename s with
        | some name => .ok (some name, r.body)
        | none => .ok (get_file_name_from_url urlPath, r.body)
    | none => .ok (get_file_name_from_url urlPath, r.body)

/-- Embeds `name.unwrap_or(format!("file_{}", i))` of the collection loop
(src/src/main.rs line 55): the on-disk name of the `i`-th task's file. -/
def finalName (name : Option (List Char)) (i : Nat) : List Char :=
  name.getD (("file_" ++ toString i).toList)

example : finalName none 3 = "file_3".toList := by decide

example : finalName (some []) 0 = [] := by decide

/-- Terminal outcome of one spawned task as seen by the collection loop
(src/src/main.rs lines 52-64): `fetched` is `Ok(Ok((name, data)))`,
`fetchFailed` is `Ok(Err(e))` (retries exhausted), `panicked` is `Err(e)`
from `JoinHandle` (the task itself crashed). -/
inductive TaskOutcome where
  | fetched (name : Option (List Char)) (data : List Nat)
  | fetchFailed (e : String)
  | panicked (e : String)

/-- Embeds the collection loop of `main` (src/src/main.rs lines 52-64):
outcomes are processed in launch order with `enumerate` index `i`; a
fetched outcome is written under `finalName name i` and a failed write
aborts `main` with its error (`fs::write(...).await?`); fetch failures
and crashed tasks are logged and skipped.  `writeOk` tells whether the
write of a given file name succeeds.  Returns the names written, in
order. -/
def collectLoop (writeOk : List Char → Bool) : Nat → List TaskOutcome → Except String (List (List Char))
  | _, [] => .ok []
  | i, o :: rest =>
    match o with
    | .fetched name _ =>
      let f := finalName name i
      if writeOk f then
        match collectLoop writeOk (i + 1) rest with
        | .ok fs => .ok (f :: fs)
        | .error e => .error e
      else .error "write failed"
    | .fetchFailed _ => collectLoop writeOk (i + 1) rest
    | .panicked _ => collectLoop writeOk (i + 1) rest

/-- Embeds `main` (src/src/main.rs lines 30-67) with its effects made
explicit: `readResult` is `fs::read_to_string` of the URL-list file
(src/src/main.rs line 34, inside `get_urls`); `mkdirOk` is the success of
`fs::create_dir_all(&args.output)` (line 50); `outcome i` is the terminal
outcome of the `i`-th spawned task; `writeOk` is the success of each
`fs::write`.  `main` returns the written file names on success and the
first fatal error otherwise; a `.ok` result is exit status 0, an `.error`
result is a non-zero exit. -/
def runMain (readResult : Except String (List Char)) (mkdirOk : Bool)
    (outcome : Nat → TaskOutcome) (writeOk : List Char → Bool) :
    Except String (List (List Char)) :=
  match readResult with
  | .error e => .error e
  | .ok content =>
    let urls := get_urls content
    let outcomes := (List.range urls.length).map outcome
    if mkdirOk then collectLoop writeOk 0 outcomes else .error "mkdir failed"

/-! ### Helper lemmas about the extractor -/

/-- Unfolding: zero fuel scans nothing. -/
theorem getUrlsGo_zero (cs : List Char) : getUrlsGo 0 cs = [] := rfl

/-- Unfolding: empty text yields no captures. -/
theorem getUrlsGo_nil (fuel : Nat) : getUrlsGo fuel [] = [] := by
  cases fuel <;> rfl

/-- Unfolding: no scheme at the current position advances the scan by one
character. -/
theorem getUrlsGo_none (fuel : Nat) (c : Char) (rest : List Char)
    (hms : matchScheme (c :: rest) = none) :
    getUrlsGo (fuel + 1) (c :: rest) = getUrlsGo fuel rest := by
  simp only [getUrlsGo, hms]

/-- Unfolding: a scheme followed immediately by whitespace or end of text
fails the `\S+` part, and the scan advances by one character. -/
theorem getUrlsGo_emptyRun (fuel : Nat) (c : Char) (rest s after : List Char)
    (hms : matchScheme (c :: rest) = some (s, after))
    (htw : after.takeWhile (fun x => !isSpace x) = []) :
    getUrlsGo (fuel + 1) (c :: rest) = getUrlsGo fuel rest := by
  simp only [getUrlsGo, hms, htw]

/-- Unfolding: a scheme whose non-whitespace run reaches the end of the
text has no following `\s`, and the scan advances by one character. -/
theorem getUrlsGo_noWs (fuel : Nat) (c : Char) (rest s after : List Char)
    (r : Char) (rs : List Char)
    (hms : matchScheme (c :: rest) = some (s, after))
    (htw : after.takeWhile (fun x => !isSpace x) = r :: rs)
    (hdw : after.dropWhile (fun x => !isSpace x) = []) :
    getUrlsGo (fuel + 1) (c :: rest) = getUrlsGo fuel rest := by
  simp only [getUrlsGo, hms, htw, hdw]

/-- Unfolding: a full match captures the scheme plus the non-whitespace
run and resumes after the consumed whitespace character. -/
theorem getUrlsGo_cons (fuel : Nat) (c : Char) (rest s after : List Char)
    (r : Char) (rs : List Char) (w : Char) (tl : List Char)
    (hms : matchScheme (c :: rest) = some (s, after))
    (htw : after.takeWhile (fun x => !isSpace x) = r :: rs)
    (hdw : after.dropWhile (fun x => !isSpace x) = w :: tl) :
    getUrlsGo (fuel + 1) (c :: rest) = (s ++ r :: rs) :: getUrlsGo fuel tl := by
  simp only [getUrlsGo, hms, htw, hdw]

/-- A successful literal match means the text starts with the pattern. -/
theorem litMatch_eq (p : List Char) : ∀ l, litMatch p l = true → l = p ++ l.drop p.length := by
  induction p with
  | nil => intro l _; simp
  | cons a ps ih =>
    intro l h
    match l with
    | [] => simp [litMatch] at h
    | c :: cs =>
      simp only [litMatch, Bool.and_eq_true, decide_eq_true_eq] at h
      obtain ⟨rfl, h2⟩ := h
      simpa using ih cs h2

/-- A successful scheme match splits the text as the scheme followed by
the remainder, and the scheme is one of the two literals. -/
theorem matchScheme_eq {cs s after : List Char} (h : matchScheme cs = some (s, after)) :
    (s = httpsLit ∨ s = httpLit) ∧ cs = s ++ after := by
  unfold matchScheme at h
  split at h
  · next hlit =>
    obtain ⟨rfl, rfl⟩ : httpsLit = s ∧ cs.drop 8 = after := by
      have := Option.some.inj h
      exact ⟨congrArg Prod.fst this, congrArg Prod.snd this⟩
    refine ⟨Or.inl rfl, ?_⟩
    have h8 : httpsLit.length = 8 := rfl
    have := litMatch_eq httpsLit cs hlit
    rwa [h8] at this
  · split at h
    · next hlit =>
      obtain ⟨rfl, rfl⟩ : httpLit = s ∧ cs.drop 7 = after := by
        have := Option.some.inj h
        exact ⟨congrArg Prod.fst this, congrArg Prod.snd this⟩
      refine ⟨Or.inr rfl, ?_⟩
      have h7 : httpLit.length = 7 := rfl
      have := litMatch_eq httpLit cs hlit
      rwa [h7] at this
    · exact absurd h (by simp)

/-- The first element surviving `dropWhile` falsifies the predicate. -/
theorem dropWhile_cons_not {α : Type} (p : α → Bool) :
    ∀ (l : List α) {x : α} {xs : List α}, l.dropWhile p = x :: xs → p x = false := by
  intro l
  induction l with
  | nil => intro x xs h; simp [List.dropWhile_nil] at h
  | cons a as ih =>
    intro x xs h
    rw [List.dropWhile_cons] at h
    split at h
    · exact ih h
    · next hpa =>
      cases h
      simpa using hpa

/-- Dropping the length of a front segment plus `i` drops `i` into the
back segment. -/
theorem drop_length_add {α : Type} (l₁ l₂ : List α) (i : Nat) :
    (l₁ ++ l₂).drop (l₁.length + i) = l₂.drop i := by
  rw [← List.drop_drop i l₁.length (l₁ ++ l₂), List.drop_left]

/-- A capture occurrence: the text at position `p` continues with `u`
followed by a whitespace character. -/
def urlSpecAt (cs : List Char) (p : Nat) (u : List Char) : Prop :=
  ∃ c rest, cs.drop p = u ++ c :: rest ∧ isSpace c = true

/-- Occurrences shift under a prepended front segment. -/
theorem urlSpecAt_shift (front tail : List Char) (p : Nat) (u : List Char)
    (h : urlSpecAt tail p u) : urlSpecAt (front ++ tail) (front.length + p) u := by
  obtain ⟨c, rest, hd, hs⟩ := h
  exact ⟨c, rest, by rw [drop_length_add]; exact hd, hs⟩

/-- A whole family of occurrences shifts under a prepended front
segment. -/
theorem positions_shift (front tail : List Char) :
    ∀ {urls : List (List Char)} {ps : List Nat},
    List.Forall₂ (fun u p => urlSpecAt tail p u) urls ps →
    List.Forall₂ (fun u p => urlSpecAt (front ++ tail) p u) urls
      (ps.map (fun p => front.length + p)) := by
  intro urls ps hf
  induction hf with
  | nil => exact List.Forall₂.nil
  | cons h _ ih => exact List.Forall₂.cons (urlSpecAt_shift front tail _ _ h) ih

/-- Strictly increasing position lists stay strictly increasing after a
constant shift. -/
theorem chain'_shift (m : Nat) {ps : List Nat} (hc : List.Chain' (· < ·) ps) :
    List.Chain' (· < ·) (ps.map (fun p => m + p)) := by
  rw [List.chain'_map]
  exact List.Chain'.imp (fun a b h => Nat.add_lt_add_left h m) hc

/-- Packaged one-character advance for the position lemma. -/
theorem positions_skip (fuel : Nat) (c : Char) (rest : List Char)
    (h : ∃ ps, List.Forall₂ (fun u p => urlSpecAt rest p u) (getUrlsGo fuel rest) ps ∧
      List.Chain' (· < ·) ps) :
    ∃ ps, List.Forall₂ (fun u p => urlSpecAt (c :: rest) p u) (getUrlsGo fuel rest) ps ∧
      List.Chain' (· < ·) ps := by
  obtain ⟨ps, hf, hc⟩ := h
  exact ⟨ps.map (fun p => 1 + p), positions_shift [c] rest hf, chain'_shift 1 hc⟩

/-- Every capture of the scanner occurs in the text followed by a
whitespace character, and the occurrence positions strictly increase. -/
theorem getUrlsGo_positions : ∀ (fuel : Nat) (cs : List Char), ∃ ps : List Nat,
    List.Forall₂ (fun u p => urlSpecAt cs p u) (getUrlsGo fuel cs) ps ∧
    List.Chain' (· < ·) ps := by
  intro fuel
  induction fuel with
  | zero =>
    intro cs
    exact ⟨[], by rw [getUrlsGo_zero]; exact List.Forall₂.nil, List.chain'_nil⟩
  | succ fuel ih =>
    intro cs
    match cs with
    | [] => exact ⟨[], by rw [getUrlsGo_nil]; exact List.Forall₂.nil, List.chain'_nil⟩
    | c :: rest =>
      cases hms : matchScheme (c :: rest) with
      | none =>
        rw [getUrlsGo_none fuel c rest hms]
        exact positions_skip fuel c rest (ih rest)
      | some pr =>
        obtain ⟨s, after⟩ := pr
        cases htw : after.takeWhile (fun x => !isSpace x) with
        | nil =>
          rw [getUrlsGo_emptyRun fuel c rest s after hms htw]
          exact positions_skip fuel c rest (ih rest)
        | cons r rs =>
          cases hdw : after.dropWhile (fun x => !isSpace x) with
          | nil =>
            rw [getUrlsGo_noWs fuel c rest s after r rs hms htw hdw]
            exact positions_skip fuel c rest (ih rest)
          | cons w tl =>
            rw [getUrlsGo_cons fuel c rest s after r rs w tl hms htw hdw]
            have hafter : (r :: rs) ++ w :: tl = after := by
              rw [← htw, ← hdw]
              exact List.takeWhile_append_dropWhile (fun x => !isSpace x) after
            have hw : isSpace w = true := by
              have := dropWhile_cons_not (fun x => !isSpace x) after hdw
              simpa using this
            have hdecomp : c :: rest = ((s ++ r :: rs) ++ [w]) ++ tl := by
              rw [(matchScheme_eq hms).2, ← hafter]
              simp
            obtain ⟨ps, hf, hc⟩ := ih tl
            refine ⟨0 :: ps.map (fun p => ((s ++ r :: rs) ++ [w]).length + p), ?_, ?_⟩
            · refine List.Forall₂.cons ⟨w, tl, ?_, hw⟩ ?_
              · rw [List.drop_zero, hdecomp]
                simp
              · rw [hdecomp]
                exact positions_shift ((s ++ r :: rs) ++ [w]) tl hf
            · rw [List.chain'_cons']
              refine ⟨?_, chain'_shift _ hc⟩
              intro y hy
              cases ps with
              | nil => simp at hy
              | cons p ps' =>
                simp only [List.map_cons, List.head?_cons, Option.mem_def,
                  Option.some.injEq] at hy
                subst hy
                have : 0 < ((s ++ r :: rs) ++ [w]).length := by simp
                omega

/-- From a `Forall₂` family, every member of the left list is related to
some witness. -/
theorem forall2_exists {α β : Type} {R : α → β → Prop} :
    ∀ {l : List α} {ps : List β}, List.Forall₂ R l ps → ∀ a ∈ l, ∃ b, R a b := by
  intro l ps h
  induction h with
  | nil => intro a ha; cases ha
  | cons hR _ ih =>
    intro a ha
    rcases List.mem_cons.mp ha with rfl | ha
    · exact ⟨_, hR⟩
    · exact ih a ha

/-- Every capture of the scanner is a scheme literal followed by its
whitespace-free run. -/
theorem getUrlsGo_shape : ∀ (fuel : Nat) (cs u : List Char), u ∈ getUrlsGo fuel cs →
    (∃ r, u = httpLit ++ r ∨ u = httpsLit ++ r) ∧ ∀ x ∈ u, isSpace x = false := by
  intro fuel
  induction fuel with
  | zero => intro cs u hu; rw [getUrlsGo_zero] at hu; cases hu
  | succ fuel ih =>
    intro cs u hu
    match cs with
    | [] => rw [getUrlsGo_nil] at hu; cases hu
    | c :: rest =>
      cases hms : matchScheme (c :: rest) with
      | none =>
        rw [getUrlsGo_none fuel c rest hms] at hu
        exact ih rest u hu
      | some pr =>
        obtain ⟨s, after⟩ := pr
        cases htw : after.takeWhile (fun x => !isSpace x) with
        | nil =>
          rw [getUrlsGo_emptyRun fuel c rest s after hms htw] at hu
          exact ih rest u hu
        | cons r rs =>
          cases hdw : after.dropWhile (fun x => !isSpace x) with
          | nil =>
            rw [getUrlsGo_noWs fuel c rest s after r rs hms htw hdw] at hu
            exact ih rest u hu
          | cons w tl =>
            rw [getUrlsGo_cons fuel c rest s after r rs w tl hms htw hdw] at hu
            rcases List.mem_cons.mp hu with rfl | hu
            · constructor
              · rcases (matchScheme_eq hms).1 with hs | hs
                · exact ⟨r :: rs, Or.inr (by rw [hs])⟩
                · exact ⟨r :: rs, Or.inl (by rw [hs])⟩
              · intro x hx
                rcases List.mem_append.mp hx with hx | hx
                · rcases (matchScheme_eq hms).1 with hs | hs <;> subst hs
                  · exact (by decide : ∀ x ∈ httpsLit, isSpace x = false) x hx
                  · exact (by decide : ∀ x ∈ httpLit, isSpace x = false) x hx
                · have hmem : x ∈ after.takeWhile (fun x => !isSpace x) := by
                    rw [htw]; exact hx
                  have := List.mem_takeWhile_imp hmem
                  simpa using this
            · exact ih tl u hu

/-! ### Helper lemmas about the retry wrapper and the collection loop -/

/-- On an operation that always fails, the retry loop performs exactly
one invocation per unit of budget plus the initial one and surfaces the
last error. -/
theorem retryLoop_always_fail {E A : Type} (f : Nat → Except E A)
    (hf : ∀ n, (f n).isOk = false) :
    ∀ (remaining k : Nat), retryLoop f remaining k = (k + remaining + 1, f (k + remaining)) := by
  intro remaining
  induction remaining with
  | zero =>
    intro k
    cases hfk : f k with
    | ok a =>
      have := hf k
      rw [hfk] at this
      simp [Except.isOk, Except.toBool] at this
    | error e =>
      unfold retryLoop
      have hfk0 : f (k + 0) = Except.error e := hfk
      rw [hfk, hfk0]
  | succ r ih =>
    intro k
    cases hfk : f k with
    | ok a =>
      have := hf k
      rw [hfk] at this
      simp [Except.isOk, Except.toBool] at this
    | error e =>
      unfold retryLoop
      rw [hfk]
      show retryLoop f r (k + 1) = (k + (r + 1) + 1, f (k + (r + 1)))
      rw [ih (k + 1)]
      have h2 : k + 1 + r = k + (r + 1) := by omega
      rw [h2]

/-- With every write succeeding, the collection loop never fails. -/
theorem collectLoop_ok_of_write :
    ∀ (l : List TaskOutcome) (i : Nat), ∃ fs, collectLoop (fun _ => true) i l = .ok fs := by
  intro l
  induction l with
  | nil => intro i; exact ⟨[], rfl⟩
  | cons o rest ih =>
    intro i
    cases o with
    | fetched name data =>
      obtain ⟨fs, hfs⟩ := ih (i + 1)
      refine ⟨finalName name i :: fs, ?_⟩
      simp only [collectLoop, if_true, hfs]
    | fetchFailed e => simpa only [collectLoop] using ih (i + 1)
    | panicked e => simpa only [collectLoop] using ih (i + 1)

/-- The only error the collection loop itself produces is a failed
write. -/
theorem collectLoop_error_eq (wOk : List Char → Bool) :
    ∀ (l : List TaskOutcome) (i : Nat) (e : String),
      collectLoop wOk i l = .error e → e = "write failed" := by
  intro l
  induction l with
  | nil => intro i e h; simp [collectLoop] at h
  | cons o rest ih =>
    intro i e h
    cases o with
    | fetched name data =>
      simp only [collectLoop] at h
      by_cases hw : wOk (finalName name i) = true
      · rw [if_pos hw] at h
        cases hcr : collectLoop wOk (i + 1) rest with
        | ok fs => rw [hcr] at h; simp at h
        | error e' =>
          rw [hcr] at h
          have : e' = e := by
            have := h
            simp at this
            exact this
          exact this ▸ ih (i + 1) e' hcr
      · rw [if_neg hw] at h
        have := h
        simp at this
        exact this.symm
    | fetchFailed e' =>
      simp only [collectLoop] at h
      exact ih (i + 1) e h
    | panicked e' =>
      simp only [collectLoop] at h
      exact ih (i + 1) e h

/-! ### Claim theorems -/

/-- C1, counterexample: with `with_max_times(5)` an always-failing
operation is invoked 6 times, not at most 5 as the claim states. -/
theorem c1_counterexample :
    (backon_retry 5 (fun _ => (Except.error 0 : Except Nat Nat))).fst = 6 ∧
    ¬ (backon_retry 5 (fun _ => (Except.error 0 : Except Nat Nat))).fst ≤ 5 := by
  exact ⟨rfl, by decide⟩

/-- C1 (amended): for every fetch task whose underlying Fetcher
invocation always fails, the retry wrapper built from
`ExponentialBuilder::default().with_max_times(5)` invokes the Fetcher
exactly 6 times in total (1 initial attempt plus 5 retries) and the
task's terminal failure carries the last error, the one of the 6th
invocation. -/
theorem c1_retry_attempt_bound {E A : Type} (f : Nat → Except E A)
    (hf : ∀ n, (f n).isOk = false) :
    (backon_retry 5 f).fst = 6 ∧ (backon_retry 5 f).snd = f 5 := by
  unfold backon_retry
  rw [retryLoop_always_fail f hf 5 0]
  exact ⟨rfl, rfl⟩

/-- A fetch operation that fails on every invocation. -/
def alwaysFailFetch : Nat → Except Nat Nat := fun _ => Except.error 0

/-- C1 witness: the amended bound evaluated on a concrete always-failing
operation. -/
theorem c1_retry_attempt_bound_witness :
    (backon_retry 5 alwaysFailFetch).fst = 6 ∧
    (backon_retry 5 alwaysFailFetch).snd = alwaysFailFetch 5 :=
  c1_retry_attempt_bound alwaysFailFetch (fun _ => rfl)

/-- C2: on the text `See http://a.b. now` the extractor yields
`http://a.b.` with the sentence-final period retained: the punctuation
class of the pattern sits inside the capture group after the greedy
`\S+`, which always consumes the punctuation character itself, so no
stripping ever happens, contrary to the claim. -/
theorem c2_trailing_punctuation_kept :
    get_urls "See http://a.b. now".toList = ["http://a.b.".toList] := by decide

/-- C3, counterexample: for a request URL with root path `/` and no
`Content-Disposition` header, the filename hint is `Some ""` (the last
path segment of `/` is the empty string), not absent, and the name used
for the write is the empty string, not `file_0`. -/
theorem c3_counterexample :
    download_image (Except.ok ⟨none, []⟩) "/".toList = Except.ok (some [], []) ∧
    finalName (some []) 0 ≠ "file_0".toList := by
  exact ⟨rfl, by decide⟩

/-- C3 (amended): for every task whose response carries no
Content-Disposition filename and whose request URL has root path `/`,
the filename hint is present but equal to the empty string, and the name
the collection loop uses for the write is the empty string (so the write
targets the output directory path itself), not `file_<N>`. -/
theorem c3_root_path_empty_hint (body : List Nat) (i : Nat) :
    download_image (Except.ok ⟨none, body⟩) "/".toList = Except.ok (some [], body) ∧
    finalName (some []) i = [] :=
  ⟨rfl, rfl⟩

/-- C4, counterexample: a response header `Content-Disposition:
attachment; filename=""` produces the hint `Some ""`, and the collection
loop uses that empty string as the on-disk filename instead of
`file_0`. -/
theorem c4_counterexample :
    download_image (Except.ok ⟨some (strBytes "attachment; filename=\"\""), []⟩)
      "/images/cat.png".toList = Except.ok (some [], []) ∧
    finalName (some []) 0 = [] ∧ finalName (some []) 0 ≠ "file_0".toList := by
  refine ⟨?_, rfl, by decide⟩
  rfl

/-- C4 (amended): for every successful task outcome, the on-disk
filename is the filename hint whenever the hint is present, even when it
is the empty string; the synthesized `file_<index>` name is used only
when the hint is absent. -/
theorem c4_hint_used_when_present (name : List Char) (i : Nat) :
    finalName (some name) i = name ∧ finalName none i = ("file_" ++ toString i).toList :=
  ⟨rfl, rfl⟩

/-- C5, counterexample: a run whose input file is read successfully and
whose output directory is created successfully still exits with an error
when the write of a successful task's file fails. -/
theorem c5_counterexample :
    runMain (Except.ok "http://a.b ".toList) true (fun _ => TaskOutcome.fetched none [])
      (fun _ => false) = Except.error "write failed" := rfl

/-- C5 (amended): the process exits with status 0 whenever reading the
input file and creating the output directory succeed and every write of
a successful task's file succeeds, regardless of how many individual
download tasks fail; with reading and directory creation successful, a
non-zero exit can only be caused by a failed write. -/
theorem c5_exit_status :
    (∀ content out, ∃ files,
      runMain (Except.ok content) true out (fun _ => true) = Except.ok files) ∧
    (∀ rr mk out w e, runMain rr mk out w = Except.error e →
      rr = Except.error e ∨ (mk = false ∧ e = "mkdir failed") ∨ e = "write failed") := by
  constructor
  · intro content out
    simp only [runMain, if_true]
    exact collectLoop_ok_of_write _ 0
  · intro rr mk out w e h
    cases rr with
    | error e' =>
      simp only [runMain] at h
      have : e' = e := by simpa using h
      exact Or.inl (by rw [this])
    | ok content =>
      cases mk with
      | false =>
        simp only [runMain, if_neg] at h
        have : "mkdir failed" = e := by simpa using h
        exact Or.inr (Or.inl ⟨rfl, this.symm⟩)
      | true =>
        simp only [runMain, if_true] at h
        exact Or.inr (Or.inr (collectLoop_error_eq w _ 0 e h))

/-- Concrete content for the C5 witness. -/
def c5Content : List Char := "http://a.b http://c.d ".toList

/-- Concrete outcomes for the C5 witness: the first task fails, the
second succeeds. -/
def c5Outcome : Nat → TaskOutcome := fun i =>
  if i = 0 then TaskOutcome.fetchFailed "boom" else TaskOutcome.fetched none [7]

/-- C5 witness: the amended exit-status property evaluated on a concrete
run with one failing and one succeeding task, and on a concrete failing
write. -/
theorem c5_exit_status_witness :
    (∃ files, runMain (Except.ok c5Content) true c5Outcome (fun _ => true) = Except.ok files) ∧
    ((Except.ok c5Content : Except String (List Char)) = Except.error "write failed" ∨
      (true = false ∧ "write failed" = "mkdir failed") ∨
      ("write failed" : String) = "write failed") :=
  ⟨c5_exit_status.1 c5Content c5Outcome,
    c5_exit_status.2 (Except.ok c5Content) true c5Outcome (fun _ => false) "write failed"
      rfl⟩

/-- C6: whenever the Content-Disposition header bytes decode to a string
in which `filename="(.*?)"` matches with capture `name`, `download_image`
resolves the filename to `name`, regardless of the request URL's path. -/
theorem c6_header_filename_precedence (h : List Nat) (s name urlPath : List Char)
    (body : List Nat) (h1 : headerToStr h = some s) (h2 : findFilename s = some name) :
    download_image (Except.ok ⟨some h, body⟩) urlPath = Except.ok (some name, body) := by
  simp only [download_image, h1, h2]

/-- C6 witness: the header `attachment; filename="report.pdf"` resolves
to `report.pdf` on a URL whose path ends in a different name. -/
theorem c6_header_filename_precedence_witness :
    download_image (Except.ok ⟨some (strBytes "attachment; filename=\"report.pdf\""), []⟩)
      "/other/path.txt".toList = Except.ok (some "report.pdf".toList, []) :=
  c6_header_filename_precedence (strBytes "attachment; filename=\"report.pdf\"")
    "attachment; filename=\"report.pdf\"".toList "report.pdf".toList
    "/other/path.txt".toList [] (by decide) (by decide)

/-- C7: for every input text the extracted URLs occur in the text at
strictly increasing positions (each followed by the whitespace the
pattern requires), i.e. the output order is the order of appearance; and
there is no deduplication: a URL appearing twice yields two entries. -/
theorem c7_order_no_dedup :
    (∀ content, ∃ ps : List Nat,
      List.Forall₂ (fun u p => urlSpecAt content p u) (get_urls content) ps ∧
      List.Chain' (· < ·) ps) ∧
    get_urls "http://a.b http://a.b ".toList
      = ["http://a.b".toList, "http://a.b".toList] :=
  ⟨fun content => getUrlsGo_positions content.length content, by decide⟩

/-- C8: every string produced by the extractor starts with `http://` or
`https://` and contains no whitespace character. -/
theorem c8_scheme_and_no_whitespace (content u : List Char) (hu : u ∈ get_urls content) :
    (∃ r, u = "http://".toList ++ r ∨ u = "https://".toList ++ r) ∧
    ∀ x ∈ u, isSpace x = false :=
  getUrlsGo_shape content.length content u hu

/-- C8 witness: the shape property evaluated on a concrete extraction. -/
theorem c8_scheme_and_no_whitespace_witness :
    (∃ r, "https://x.y".toList = "http://".toList ++ r ∨
      "https://x.y".toList = "https://".toList ++ r) ∧
    ∀ x ∈ "https://x.y".toList, isSpace x = false :=
  c8_scheme_and_no_whitespace "go https://x.y now".toList "https://x.y".toList (by decide)

/-- C9: every extracted URL occurrence is immediately followed by a
whitespace character in the text, and a URL at the very end of the input
with no trailing whitespace is not extracted. -/
theorem c9_trailing_whitespace_required :
    (∀ (content u : List Char), u ∈ get_urls content →
      ∃ p c rest, content.drop p = u ++ c :: rest ∧ isSpace c = true) ∧
    get_urls "last url: http://a.b/c.png".toList = [] := by
  constructor
  · intro content u hu
    obtain ⟨ps, hf, _⟩ := getUrlsGo_positions content.length content
    obtain ⟨p, c, rest, h1, h2⟩ := forall2_exists hf u hu
    exact ⟨p, c, rest, h1, h2⟩
  · decide

/-- C9 witness: the followed-by-whitespace property evaluated on a
concrete extraction. -/
theorem c9_trailing_whitespace_required_witness :
    ∃ p c rest, ("see http://a.b ok".toList).drop p = "http://a.b".toList ++ c :: rest ∧
      isSpace c = true :=
  c9_trailing_whitespace_required.1 "see http://a.b ok".toList "http://a.b".toList (by decide)

/-- C10: if the Content-Disposition header value contains a byte that is
not visible ASCII, the whole `download_image` call returns an error
(`h.to_str()?`), rather than falling back to the URL-derived filename,
even though the response status was successful. -/
theorem c10_invalid_header_fails_fetch (h : List Nat) (urlPath : List Char)
    (body : List Nat) (hv : h.all is_visible_ascii = false) :
    download_image (Except.ok ⟨some h, body⟩) urlPath = Except.error "InvalidHeaderValue" := by
  simp only [download_image, headerToStr, hv]
  rfl

/-- C10 witness: a header value containing byte 200 makes the fetch
attempt fail even though a URL-derived filename was available. -/
theorem c10_invalid_header_fails_fetch_witness :
    download_image (Except.ok ⟨some [200], []⟩) "/a/b.png".toList
      = Except.error "InvalidHeaderValue" :=
  c10_invalid_header_fails_fetch [200] "/a/b.png".toList [] (by decide)

end Downall
